import Mathlib

/-!
Verification of the stock-screener repository against its specification.

Shallow embedding conventions:
* Prices, indicator values and scores are rationals (`ℚ`); a possibly-missing
  (NaN) value is an `Option ℚ`.
* Dates are integers (day numbers); calendar months are `(year, month)` pairs.
* A Python function that can raise on some input is embedded as a function
  into `Option _`, `none` marking the raised exception.
* Pandas series become lists; a series position holding NaN is `none`.
-/

/-- A possibly-missing value is missing exactly when it is `none`
(embeds `pd.isna`). -/
def pdIsna (x : Option ℚ) : Bool := x.isNone

/-- Python `round` to an integer: round half to even (banker's rounding). -/
def pyRoundInt (q : ℚ) : ℤ :=
  if q - ⌊q⌋ < 1/2 then ⌊q⌋
  else if 1/2 < q - ⌊q⌋ then ⌊q⌋ + 1
  else if ⌊q⌋ % 2 = 0 then ⌊q⌋ else ⌊q⌋ + 1

/-- Python `round(x, 2)`. -/
def round2 (q : ℚ) : ℚ := (pyRoundInt (q * 100) : ℚ) / 100

/-- The scorer of `scoring.py`: holds the two combination weights. -/
structure StockScorer where
  ma_weight : ℚ
  rsi_weight : ℚ
deriving DecidableEq

/-- Embeds `StockScorer.__init__` (scoring.py): raises `ValueError` when
`abs(ma_weight + rsi_weight - 1.0) > 0.001`, otherwise stores the weights
unchanged.  `none` is the raised error. -/
def scorerInit (ma_weight rsi_weight : ℚ) : Option StockScorer :=
  if |ma_weight + rsi_weight - 1| > 1/1000 then none
  else some ⟨ma_weight, rsi_weight⟩

/-- Embeds `StockScorer.get_ma_signal` (scoring.py): 0 when either input is
missing or the moving average is zero, otherwise +1 / -1 / 0 by the
±1 % band around the moving average. -/
def StockScorer.get_ma_signal (price ma50 : Option ℚ) : ℚ :=
  match price, ma50 with
  | some p, some m =>
    if m = 0 then 0
    else
      if (p - m) / m * 100 > 1 then 1
      else if (p - m) / m * 100 < -1 then -1
      else 0
  | _, _ => 0

/-- Embeds `StockScorer.get_rsi_signal` (scoring.py): 0 when missing, otherwise
clamp to [0,100] and map >60 ↦ +1.0, <40 ↦ -0.5, else 0. -/
def StockScorer.get_rsi_signal (rsi14 : Option ℚ) : ℚ :=
  match rsi14 with
  | none => 0
  | some r =>
    if max 0 (min 100 r) > 60 then 1
    else if max 0 (min 100 r) < 40 then -1/2
    else 0

/-- Embeds `StockScorer.calculate_score` (scoring.py): weighted sum of the two
signals, rounded to two decimal places.  No clamping. -/
def StockScorer.calculate_score (sc : StockScorer) (price ma50 rsi14 : Option ℚ) : ℚ :=
  round2 (sc.ma_weight * StockScorer.get_ma_signal price ma50
          + sc.rsi_weight * StockScorer.get_rsi_signal rsi14)

/-- Module-level `get_ma_signal` of `indicators.py`.  It only guards against
a missing `ma_value`; a present zero `ma_value` leads to a division by zero
(`ZeroDivisionError`, embedded as `none`).  A missing price propagates as
NaN through the comparisons, both of which are then false, giving 0. -/
def indicators.get_ma_signal (current_price ma_value : Option ℚ)
    (threshold_pct : ℚ) : Option ℚ :=
  match ma_value with
  | none => some 0
  | some m =>
    if m = 0 then none
    else
      match current_price with
      | none => some 0
      | some p =>
        if (p - m) / m * 100 > threshold_pct then some 1
        else if (p - m) / m * 100 < -threshold_pct then some (-1)
        else some 0

/-- Module-level `get_rsi_signal` of `indicators.py`. -/
def indicators.get_rsi_signal (rsi_value : Option ℚ) : ℚ :=
  match rsi_value with
  | none => 0
  | some r => if r > 60 then 1 else if r < 40 then -1/2 else 0

/-- Module-level `combine_signals` of `indicators.py`: weighted sum clamped
to [-1.0, 1.0]. -/
def combine_signals (ma_signal rsi_signal : ℚ)
    (ma_weight rsi_weight : ℚ) : ℚ :=
  max (-1) (min 1 (ma_weight * ma_signal + rsi_weight * rsi_signal))

lemma pyRoundInt_le (q : ℚ) : (pyRoundInt q : ℚ) ≤ q + 1/2 := by
  unfold pyRoundInt
  have hfl : (⌊q⌋ : ℚ) ≤ q := Int.floor_le q
  have hfl2 : q < (⌊q⌋ : ℚ) + 1 := Int.lt_floor_add_one q
  split
  · linarith
  · split
    · push_cast
      next h1 h2 => linarith
    · split <;> push_cast <;>
      next h1 h2 => linarith

lemma le_pyRoundInt (q : ℚ) : q - 1/2 ≤ (pyRoundInt q : ℚ) := by
  unfold pyRoundInt
  have hfl : (⌊q⌋ : ℚ) ≤ q := Int.floor_le q
  have hfl2 : q < (⌊q⌋ : ℚ) + 1 := Int.lt_floor_add_one q
  split
  · next h1 => linarith
  · split
    · push_cast; linarith
    · split <;> push_cast <;>
      next h1 h2 => linarith

/-- If `|x| ≤ 1.001` then rounding to two decimals lands in `[-1, 1]`. -/
lemma round2_bound {x : ℚ} (h1 : -(1001/1000) ≤ x) (h2 : x ≤ 1001/1000) :
    -1 ≤ round2 x ∧ round2 x ≤ 1 := by
  have hub : (pyRoundInt (x * 100) : ℚ) ≤ 1006/10 := by
    have := pyRoundInt_le (x * 100)
    linarith
  have hlb : -(1006/10) ≤ (pyRoundInt (x * 100) : ℚ) := by
    have := le_pyRoundInt (x * 100)
    linarith
  have hub' : pyRoundInt (x * 100) ≤ 100 := by
    by_contra hc
    push_neg at hc
    have : (101 : ℚ) ≤ (pyRoundInt (x * 100) : ℚ) := by exact_mod_cast hc
    linarith
  have hlb' : -100 ≤ pyRoundInt (x * 100) := by
    by_contra hc
    push_neg at hc
    have : (pyRoundInt (x * 100) : ℚ) ≤ -101 := by
      have : pyRoundInt (x * 100) ≤ -101 := by omega
      exact_mod_cast this
    linarith
  constructor
  · show -1 ≤ (pyRoundInt (x * 100) : ℚ) / 100
    rw [le_div_iff₀ (by norm_num : (0:ℚ) < 100)]
    have : (-100 : ℚ) ≤ (pyRoundInt (x * 100) : ℚ) := by exact_mod_cast hlb'
    linarith
  · show (pyRoundInt (x * 100) : ℚ) / 100 ≤ 1
    rw [div_le_iff₀ (by norm_num : (0:ℚ) < 100)]
    have : (pyRoundInt (x * 100) : ℚ) ≤ 100 := by exact_mod_cast hub'
    linarith

lemma ma_signal_cases (price ma50 : Option ℚ) :
    StockScorer.get_ma_signal price ma50 = 1 ∨
    StockScorer.get_ma_signal price ma50 = 0 ∨
    StockScorer.get_ma_signal price ma50 = -1 := by
  rcases price with _ | p <;> rcases ma50 with _ | m
  · exact Or.inr (Or.inl rfl)
  · exact Or.inr (Or.inl rfl)
  · exact Or.inr (Or.inl rfl)
  · simp only [StockScorer.get_ma_signal]
    split
    · exact Or.inr (Or.inl rfl)
    · split
      · exact Or.inl rfl
      · split
        · exact Or.inr (Or.inr rfl)
        · exact Or.inr (Or.inl rfl)

lemma rsi_signal_cases (rsi14 : Option ℚ) :
    StockScorer.get_rsi_signal rsi14 = 1 ∨
    StockScorer.get_rsi_signal rsi14 = 0 ∨
    StockScorer.get_rsi_signal rsi14 = -1/2 := by
  unfold StockScorer.get_rsi_signal
  rcases rsi14 with _ | r
  · simp
  · simp only
    split
    · simp
    · split <;> simp

/-- C3 as stated is false: the construction-time validation also accepts
weight pairs with a negative component (here (2, -1), whose sum is exactly
1), and for such a scorer the score escapes [-1.0, 1.0]. -/
theorem c3_score_bound_counterexample :
    scorerInit 2 (-1) = some ⟨2, -1⟩ ∧ (2 : ℚ) + (-1) = 1 ∧
    1 < StockScorer.calculate_score ⟨2, -1⟩ (some 500) (some 480) none := by
  refine ⟨by unfold scorerInit; norm_num, by norm_num, ?_⟩
  norm_num [StockScorer.calculate_score, StockScorer.get_ma_signal,
    StockScorer.get_rsi_signal, round2, pyRoundInt]

/-- C3 (amended): for every weight pair accepted by the scorer's
construction-time validation whose components are both nonnegative, and for
every price, trend and momentum value (including missing ones), the score
returned by `calculate_score` lies in [-1.0, 1.0]. -/
theorem c3_score_bounded_amended (w_m w_r : ℚ) (hm : 0 ≤ w_m) (hr : 0 ≤ w_r)
    (sc : StockScorer) (hsc : scorerInit w_m w_r = some sc)
    (price ma50 rsi14 : Option ℚ) :
    -1 ≤ sc.calculate_score price ma50 rsi14 ∧
    sc.calculate_score price ma50 rsi14 ≤ 1 := by
  unfold scorerInit at hsc
  split at hsc
  · exact absurd hsc (by simp)
  · next h =>
    rw [not_lt, abs_le] at h
    obtain ⟨h1, h2⟩ := h
    obtain rfl := Option.some.inj hsc
    simp only [StockScorer.calculate_score]
    rcases ma_signal_cases price ma50 with hs1 | hs1 | hs1 <;>
      rcases rsi_signal_cases rsi14 with hs2 | hs2 | hs2 <;>
      rw [hs1, hs2] <;> apply round2_bound <;> linarith

/-- Witness for C3 (amended) at the default weights (0.4, 0.6) and the
spec's first end-to-end example. -/
theorem c3_score_bounded_witness :
    -1 ≤ StockScorer.calculate_score ⟨2/5, 3/5⟩ (some 500) (some 480) (some 65) ∧
    StockScorer.calculate_score ⟨2/5, 3/5⟩ (some 500) (some 480) (some 65) ≤ 1 :=
  c3_score_bounded_amended (2/5) (3/5) (by norm_num) (by norm_num)
    ⟨2/5, 3/5⟩ (by unfold scorerInit; norm_num) (some 500) (some 480) (some 65)

/-- C5 as stated is false: with weights (0.4005, 0.6), whose sum 1.0005
differs from 1.0 by less than the 0.001 tolerance, construction succeeds
even though the sum is not exactly 1.0. -/
theorem c5_tolerance_counterexample :
    scorerInit (801/2000) (3/5) = some ⟨801/2000, 3/5⟩ ∧
    (801/2000 : ℚ) + 3/5 ≠ 1 := by
  constructor
  · unfold scorerInit
    rw [if_neg]
    rw [not_lt, abs_le]
    constructor <;> norm_num
  · norm_num

/-- C5 (amended): constructing the scorer raises a configuration error if
and only if the weights' sum differs from 1.0 by more than 0.001; when
construction succeeds the weights are stored unchanged (never silently
corrected). -/
theorem c5_weight_validation_amended (w_m w_r : ℚ) :
    (scorerInit w_m w_r = none ↔ |w_m + w_r - 1| > 1/1000) ∧
    ∀ sc, scorerInit w_m w_r = some sc →
      sc.ma_weight = w_m ∧ sc.rsi_weight = w_r := by
  constructor
  · unfold scorerInit
    split
    · next h => exact iff_of_true rfl h
    · next h => exact iff_of_false (by simp) h
  · intro sc hsc
    unfold scorerInit at hsc
    split at hsc
    · exact absurd hsc (by simp)
    · obtain rfl := Option.some.inj hsc
      exact ⟨rfl, rfl⟩

/-- Witness for C5 (amended) at the default weights (0.4, 0.6). -/
theorem c5_weight_validation_witness :
    StockScorer.ma_weight ⟨2/5, 3/5⟩ = 2/5 ∧
    StockScorer.rsi_weight ⟨2/5, 3/5⟩ = 3/5 :=
  (c5_weight_validation_amended (2/5) (3/5)).2 ⟨2/5, 3/5⟩
    (by unfold scorerInit; norm_num)

/-- C8 as stated is false for the `indicators.py` copy: with a present
price 5 and a present trend value 0, `StockScorer.get_ma_signal` returns 0
but the module-level `get_ma_signal` divides by zero (raises, embedded as
`none`) instead of returning 0. -/
theorem c8_ma_signal_zero_counterexample :
    StockScorer.get_ma_signal (some 5) (some 0) = 0 ∧
    indicators.get_ma_signal (some 5) (some 0) 1 = none := by
  exact ⟨by simp [StockScorer.get_ma_signal], by simp [indicators.get_ma_signal]⟩

/-- C8 (amended): `StockScorer.get_ma_signal` returns 0 whenever either
input is missing or the trend value is zero, and always yields +1, 0 or -1;
the module-level `get_ma_signal` of `indicators.py` returns 0 when the
trend value is missing or the price is missing (with nonzero trend), but
fails with a division-by-zero error when the trend value is present and
zero. -/
theorem c8_ma_signal_amended :
    (∀ price ma50 : Option ℚ, price = none ∨ ma50 = none ∨ ma50 = some 0 →
      StockScorer.get_ma_signal price ma50 = 0) ∧
    (∀ price ma50 : Option ℚ, StockScorer.get_ma_signal price ma50 = 1 ∨
      StockScorer.get_ma_signal price ma50 = 0 ∨
      StockScorer.get_ma_signal price ma50 = -1) ∧
    (∀ p t : ℚ, indicators.get_ma_signal (some p) none t = some 0) ∧
    (∀ t : ℚ, indicators.get_ma_signal none none t = some 0) ∧
    (∀ m t : ℚ, m ≠ 0 → indicators.get_ma_signal none (some m) t = some 0) ∧
    (∀ p t : ℚ, indicators.get_ma_signal (some p) (some 0) t = none) := by
  refine ⟨?_, ma_signal_cases, fun p t => rfl, fun t => rfl, ?_, ?_⟩
  · intro price ma50 h
    rcases h with rfl | rfl | rfl
    · cases ma50 <;> rfl
    · cases price <;> rfl
    · cases price with
      | none => rfl
      | some p => simp [StockScorer.get_ma_signal]
  · intro m t hm
    simp [indicators.get_ma_signal, hm]
  · intro p t
    simp [indicators.get_ma_signal]

/-- Witness for C8 (amended) at concrete inputs. -/
theorem c8_ma_signal_witness :
    StockScorer.get_ma_signal (some 5) (some 0) = 0 ∧
    indicators.get_ma_signal none (some 3) 1 = some 0 :=
  ⟨c8_ma_signal_amended.1 (some 5) (some 0) (Or.inr (Or.inr rfl)),
   c8_ma_signal_amended.2.2.2.2.1 3 1 (by norm_num)⟩

/-- C10: the module-level `combine_signals` clamps, so its value lies in
[-1.0, 1.0] for arbitrary signals and arbitrary weights; the class-based
`calculate_score` gives no such guarantee: a scorer accepted by the
construction-time validation can produce a score above 1. -/
theorem c10_combine_signals_clamped :
    (∀ ma_signal rsi_signal ma_weight rsi_weight : ℚ,
      -1 ≤ combine_signals ma_signal rsi_signal ma_weight rsi_weight ∧
      combine_signals ma_signal rsi_signal ma_weight rsi_weight ≤ 1) ∧
    ∃ sc : StockScorer, scorerInit sc.ma_weight sc.rsi_weight = some sc ∧
      ∃ price ma50 rsi14 : Option ℚ, 1 < sc.calculate_score price ma50 rsi14 := by
  constructor
  · intro s1 s2 w1 w2
    exact ⟨le_max_left _ _, max_le (by norm_num) (min_le_left _ _)⟩
  · refine ⟨⟨2, -1⟩, by unfold scorerInit; norm_num, some 500, some 480, none, ?_⟩
    norm_num [StockScorer.calculate_score, StockScorer.get_ma_signal,
      StockScorer.get_rsi_signal, round2, pyRoundInt]

/-- Embeds `price_series.diff()` (pandas): NaN at position 0, then successive
differences. -/
def seriesDiff (prices : List ℚ) : List (Option ℚ) :=
  match prices with
  | [] => []
  | _ :: _ =>
    none :: List.zipWith (fun prev cur => some (cur - prev)) prices prices.tail

/-- Embeds `delta.where(delta > 0, 0)`: a NaN delta compares false and becomes 0. -/
def gainOf (delta : Option ℚ) : ℚ :=
  match delta with
  | none => 0
  | some d => if d > 0 then d else 0

/-- Embeds `-delta.where(delta < 0, 0)`: negated negative deltas; NaN becomes 0. -/
def lossOf (delta : Option ℚ) : ℚ :=
  match delta with
  | none => 0
  | some d => if d < 0 then -d else 0

/-- pandas `rolling(window).mean()` over an all-defined series: position `i`
is defined once `i + 1 ≥ window` and holds the mean of the trailing
`window` values. -/
def rollingMean (window : ℕ) (xs : List ℚ) : List (Option ℚ) :=
  (List.range xs.length).map (fun i =>
    if window ≤ i + 1 then some (((xs.drop (i + 1 - window)).take window).sum / window)
    else none)

/-- Embeds `calculate_moving_average` (indicators.py): `rolling(window).mean()`. -/
def calculate_moving_average (price_series : List ℚ) (window : ℕ) : List (Option ℚ) :=
  rollingMean window price_series

/-- One position of the ratio map `rs = avg_gain / avg_loss; rsi = 100 - 100/(1 + rs)`
under IEEE float semantics: positive/zero gives +∞, so the result saturates
at 100; zero/zero gives NaN, which propagates. -/
def rsiPoint (avg_gain avg_loss : Option ℚ) : Option ℚ :=
  match avg_gain, avg_loss with
  | some g, some l =>
    if l = 0 then (if g = 0 then none else some 100)
    else some (100 - 100 / (1 + g / l))
  | _, _ => none

/-- The `avg_gain` series of `calculate_rsi` (indicators.py). -/
def avgGainSeries (prices : List ℚ) (period : ℕ) : List (Option ℚ) :=
  rollingMean period ((seriesDiff prices).map gainOf)

/-- The `avg_loss` series of `calculate_rsi` (indicators.py). -/
def avgLossSeries (prices : List ℚ) (period : ℕ) : List (Option ℚ) :=
  rollingMean period ((seriesDiff prices).map lossOf)

/-- Embeds `calculate_rsi` (indicators.py). -/
def calculate_rsi (prices : List ℚ) (period : ℕ) : List (Option ℚ) :=
  List.zipWith rsiPoint (avgGainSeries prices period) (avgLossSeries prices period)

lemma getElem?_zipWith {α β γ : Type} (f : α → β → γ) :
    ∀ (as : List α) (bs : List β) (i : ℕ),
      (List.zipWith f as bs)[i]? = as[i]?.bind fun a => bs[i]?.map fun b => f a b := by
  intro as
  induction as with
  | nil => intro bs i; simp
  | cons a as ih =>
    intro bs i
    cases bs with
    | nil => simp
    | cons b bs =>
      cases i with
      | zero => simp
      | succ i => simpa using ih bs i

lemma rollingMean_getElem (w : ℕ) (xs : List ℚ) (i : ℕ) (h : i < xs.length) :
    (rollingMean w xs)[i]? =
      some (if w ≤ i + 1 then some (((xs.drop (i + 1 - w)).take w).sum / w)
            else none) := by
  unfold rollingMean
  rw [List.getElem?_map, List.getElem?_range h]
  rfl

lemma rollingMean_length (w : ℕ) (xs : List ℚ) :
    (rollingMean w xs).length = xs.length := by
  simp [rollingMean]

lemma rollingMean_nonneg {w : ℕ} {xs : List ℚ} (hxs : ∀ x ∈ xs, 0 ≤ x)
    {i : ℕ} {q : ℚ} (h : (rollingMean w xs)[i]? = some (some q)) : 0 ≤ q := by
  rcases lt_or_ge i xs.length with hi | hi
  · rw [rollingMean_getElem w xs i hi] at h
    split at h
    · obtain rfl : ((xs.drop (i + 1 - w)).take w).sum / w = q := by
        simpa using h
      apply div_nonneg
      · apply List.sum_nonneg
        intro x hx
        exact hxs x (List.mem_of_mem_drop (List.mem_of_mem_take hx))
      · positivity
    · simp at h
  · rw [List.getElem?_eq_none (by rw [rollingMean_length]; exact hi)] at h
    simp at h

lemma gainOf_nonneg (d : Option ℚ) : 0 ≤ gainOf d := by
  unfold gainOf
  rcases d with _ | v
  · simp
  · simp only
    split <;> linarith

lemma lossOf_nonneg (d : Option ℚ) : 0 ≤ lossOf d := by
  unfold lossOf
  rcases d with _ | v
  · simp
  · simp only
    split <;> linarith

/-- C7: every defined RSI value lies in [0, 100]; zero average loss with
positive average gain yields exactly 100; zero average gain and zero
average loss yield an undefined (missing) value rather than a crash. -/
theorem c7_rsi_range (prices : List ℚ) (period : ℕ) (hp : 0 < period) :
    (∀ (i : ℕ) (q : ℚ), (calculate_rsi prices period)[i]? = some (some q) →
      0 ≤ q ∧ q ≤ 100) ∧
    (∀ (i : ℕ) (g : ℚ), (avgGainSeries prices period)[i]? = some (some g) →
      0 < g →
      (avgLossSeries prices period)[i]? = some (some 0) →
      (calculate_rsi prices period)[i]? = some (some 100)) ∧
    (∀ i : ℕ, (avgGainSeries prices period)[i]? = some (some 0) →
      (avgLossSeries prices period)[i]? = some (some 0) →
      (calculate_rsi prices period)[i]? = some none) := by
  have hgain : ∀ x ∈ (seriesDiff prices).map gainOf, (0:ℚ) ≤ x := by
    intro x hx
    obtain ⟨d, _, rfl⟩ := List.mem_map.mp hx
    exact gainOf_nonneg d
  have hloss : ∀ x ∈ (seriesDiff prices).map lossOf, (0:ℚ) ≤ x := by
    intro x hx
    obtain ⟨d, _, rfl⟩ := List.mem_map.mp hx
    exact lossOf_nonneg d
  refine ⟨?_, ?_, ?_⟩
  · intro i q h
    unfold calculate_rsi at h
    rw [getElem?_zipWith] at h
    rcases hag : (avgGainSeries prices period)[i]? with _ | a
    · rw [hag] at h; simp at h
    · rcases hal : (avgLossSeries prices period)[i]? with _ | b
      · rw [hag, hal] at h; simp at h
      · rw [hag, hal] at h
        simp only [Option.some_bind, Option.map_some', Option.some.injEq] at h
        rcases a with _ | g
        · simp [rsiPoint] at h
        · rcases b with _ | l
          · simp [rsiPoint] at h
          · have hg : 0 ≤ g := rollingMean_nonneg hgain hag
            have hl : 0 ≤ l := rollingMean_nonneg hloss hal
            unfold rsiPoint at h
            simp only at h
            split at h
            · split at h
              · simp at h
              · obtain rfl : (100:ℚ) = q := by simpa using h
                norm_num
            · obtain rfl : 100 - 100 / (1 + g / l) = q := by simpa using h
              next hlne =>
                have hlpos : 0 < l := lt_of_le_of_ne hl (Ne.symm hlne)
                have hrs : 0 ≤ g / l := div_nonneg hg hl
                have hden : (1:ℚ) ≤ 1 + g / l := by linarith
                have hdenpos : (0:ℚ) < 1 + g / l := by linarith
                have hle : 100 / (1 + g / l) ≤ 100 := by
                  rw [div_le_iff₀ hdenpos]; nlinarith
                have hpos : 0 < 100 / (1 + g / l) := by positivity
                constructor <;> linarith
  · intro i g hag hgpos hal
    unfold calculate_rsi
    rw [getElem?_zipWith, hag, hal]
    simp [rsiPoint, hgpos.ne']
  · intro i hag hal
    unfold calculate_rsi
    rw [getElem?_zipWith, hag, hal]
    simp [rsiPoint]

/-- Witness for C7 on concrete series: prices [1,2,3] (all-gain) give RSI
exactly 100 at the last defined position, and constant prices [1,1,1]
(0/0) give a missing value. -/
theorem c7_rsi_range_witness :
    ((0:ℚ) ≤ 100 ∧ (100:ℚ) ≤ 100) ∧
    (calculate_rsi [1, 2, 3] 2)[1]? = some (some 100) ∧
    (calculate_rsi [1, 1, 1] 2)[1]? = some none :=
  ⟨(c7_rsi_range [1, 2, 3] 2 (by norm_num)).1 1 100
      (by with_unfolding_all decide),
   (c7_rsi_range [1, 2, 3] 2 (by norm_num)).2.1 1 (1/2)
      (by with_unfolding_all decide) (by norm_num) (by with_unfolding_all decide),
   (c7_rsi_range [1, 1, 1] 2 (by norm_num)).2.2 1
      (by with_unfolding_all decide) (by with_unfolding_all decide)⟩

/-- One row of a downloaded price table: a trading date (day number) and
the close price. -/
structure PricePoint where
  date : ℤ
  price : ℚ
deriving DecidableEq

/-- A screen result entry: `(ticker, score, entry_price)`. -/
structure Pick where
  ticker : String
  score : ℚ
  entry : ℚ
deriving DecidableEq

/-- Embeds `yf.download(ticker, start=start, end=stop)`: the data source's rows
with `start ≤ date < stop` — the half-open window, never including `stop`
or anything after it. -/
def yfDownload (src : String → List PricePoint) (ticker : String)
    (start stop : ℤ) : List PricePoint :=
  (src ticker).filter (fun p => decide (start ≤ p.date) && decide (p.date < stop))

/-- Embeds `Backtest._download_data_blind`: only data in
`[screen_date - lookback_days, screen_date)`. -/
def download_data_blind (src : String → List PricePoint) (lookback_days : ℕ)
    (ticker : String) (screen_date : ℤ) : List PricePoint :=
  yfDownload src ticker (screen_date - lookback_days) screen_date

/-- The per-ticker body of `Backtest._screen_stocks` (and of
`WalkForwardValidator._screen_blind`): download the blind window, skip the
ticker if it is empty, compute the latest close / MA50 / RSI14 via
`StockScreener.calculate_indicators`, skip if MA or RSI is missing,
otherwise score.  The `screener.scorer` attribute referenced by
backtest.py is never set by screener.py's `StockScreener` (the modules are
iterative copies); the embedding resolves it to the default `StockScorer()`
of scoring.py (weights 0.4/0.6), the evident intent.  `none` means the
ticker is skipped. -/
def scoreTicker (src : String → List PricePoint) (lookback_days : ℕ)
    (screen_date : ℤ) (ticker : String) : Option Pick :=
  let df := download_data_blind src lookback_days ticker screen_date
  if df.isEmpty then none
  else
    let closes := df.map PricePoint.price
    match closes.getLast?, (calculate_moving_average closes 50).getLast?,
          (calculate_rsi closes 14).getLast? with
    | some close, some (some ma), some (some rsi) =>
      some ⟨ticker, StockScorer.calculate_score ⟨2/5, 3/5⟩
              (some close) (some ma) (some rsi), close⟩
    | _, _, _ => none

/-- The instruments surviving data retrieval and indicator-definedness
checks, scored, in original universe order (dict insertion order). -/
def scoredList (src : String → List PricePoint) (lookback_days : ℕ)
    (univ : List String) (screen_date : ℤ) : List Pick :=
  univ.filterMap (scoreTicker src lookback_days screen_date)

/-- Stable insertion for the descending sort: the inserted element (which
comes earlier in the original order) passes only elements with strictly
greater score, so it precedes later elements of equal score. -/
def insertByScoreDesc (x : Pick) : List Pick → List Pick
  | [] => [x]
  | y :: ys =>
    if y.score > x.score then y :: insertByScoreDesc x ys else x :: y :: ys

/-- Embeds `scored.sort(key=lambda x: x[1], reverse=True)`: Python's sort is
stable, and a stable descending sort has a unique result, here realized as
insertion sort. -/
def sortByScoreDesc : List Pick → List Pick
  | [] => []
  | x :: xs => insertByScoreDesc x (sortByScoreDesc xs)

/-- Embeds `Backtest._screen_stocks`: sort the scored survivors by score
descending and return `scored[:top_n]`. -/
def screen_stocks (src : String → List PricePoint)
    (lookback_days top_n : ℕ) (univ : List String) (screen_date : ℤ) :
    List Pick :=
  (sortByScoreDesc (scoredList src lookback_days univ screen_date)).take top_n

lemma filter_and_split (l : List PricePoint) (a b : PricePoint → Bool) :
    l.filter (fun p => a p && b p) = (l.filter b).filter (fun p => a p) := by
  induction l with
  | nil => rfl
  | cons x xs ih =>
    simp only [List.filter_cons]
    cases ha : a x <;> cases hb : b x <;>
      simp only [ha, hb, Bool.and_true, Bool.and_false, Bool.true_and,
        Bool.false_and, if_true, if_false, List.filter_cons, ih,
        Bool.false_eq_true]

lemma filterMap_congr_mem {α β : Type} (l : List α) (f g : α → Option β)
    (h : ∀ x ∈ l, f x = g x) : l.filterMap f = l.filterMap g := by
  induction l with
  | nil => rfl
  | cons x xs ih =>
    simp only [List.filterMap_cons, h x (List.mem_cons_self x xs)]
    rw [ih fun y hy => h y (List.mem_cons_of_mem x hy)]

/-- C1: screening at decision date `D` depends only on price data dated
strictly before `D`: two data sources agreeing on all pre-`D` prices give
identical screen results, whatever their data at or after `D`. -/
theorem c1_screen_causality (src1 src2 : String → List PricePoint)
    (lookback_days top_n : ℕ) (univ : List String) (D : ℤ)
    (h : ∀ t, (src1 t).filter (fun p => decide (p.date < D)) =
              (src2 t).filter (fun p => decide (p.date < D))) :
    screen_stocks src1 lookback_days top_n univ D =
    screen_stocks src2 lookback_days top_n univ D := by
  have hw : ∀ t, download_data_blind src1 lookback_days t D =
                 download_data_blind src2 lookback_days t D := by
    intro t
    unfold download_data_blind yfDownload
    rw [filter_and_split, filter_and_split, h t]
  have hs : ∀ t, scoreTicker src1 lookback_days D t =
                 scoreTicker src2 lookback_days D t := by
    intro t
    unfold scoreTicker
    rw [hw t]
  unfold screen_stocks scoredList
  rw [filterMap_congr_mem univ _ _ fun t _ => hs t]

/-- Data source for the C1 witness: only a pre-`D` point. -/
def c1srcA : String → List PricePoint := fun _ => [⟨3, 10⟩]

/-- Data source for the C1 witness: same pre-`D` data plus an anomalous
post-`D` point. -/
def c1srcB : String → List PricePoint := fun _ => [⟨3, 10⟩, ⟨12, 999⟩]

/-- Witness for C1: a source with an extra anomalous price dated after the
decision date 10 screens identically. -/
theorem c1_screen_causality_witness :
    screen_stocks c1srcA 5 3 ["A"] 10 = screen_stocks c1srcB 5 3 ["A"] 10 :=
  c1_screen_causality c1srcA c1srcB 5 3 ["A"] 10
    (fun t => by
      simp only [c1srcA, c1srcB]
      with_unfolding_all decide)

lemma length_insertByScoreDesc (x : Pick) (l : List Pick) :
    (insertByScoreDesc x l).length = l.length + 1 := by
  induction l with
  | nil => rfl
  | cons y ys ih =>
    simp only [insertByScoreDesc]
    split
    · simp [ih]
    · simp

lemma length_sortByScoreDesc (l : List Pick) :
    (sortByScoreDesc l).length = l.length := by
  induction l with
  | nil => rfl
  | cons x xs ih => simp [sortByScoreDesc, length_insertByScoreDesc, ih]

lemma mem_insertByScoreDesc {z x : Pick} {l : List Pick} :
    z ∈ insertByScoreDesc x l ↔ z = x ∨ z ∈ l := by
  induction l with
  | nil => simp [insertByScoreDesc]
  | cons y ys ih =>
    simp only [insertByScoreDesc]
    split
    · simp only [List.mem_cons, ih]
      tauto
    · simp [List.mem_cons]

lemma pairwise_insertByScoreDesc (x : Pick) (l : List Pick)
    (h : l.Pairwise (fun a b => b.score ≤ a.score)) :
    (insertByScoreDesc x l).Pairwise (fun a b => b.score ≤ a.score) := by
  induction l with
  | nil => simp [insertByScoreDesc]
  | cons y ys ih =>
    rw [List.pairwise_cons] at h
    obtain ⟨hy, hys⟩ := h
    simp only [insertByScoreDesc]
    split
    · next hgt =>
      rw [List.pairwise_cons]
      refine ⟨?_, ih hys⟩
      intro z hz
      rcases mem_insertByScoreDesc.mp hz with rfl | hz'
      · exact le_of_lt hgt
      · exact hy z hz'
    · next hle =>
      rw [List.pairwise_cons]
      refine ⟨?_, List.pairwise_cons.mpr ⟨hy, hys⟩⟩
      intro z hz
      rcases List.mem_cons.mp hz with rfl | hz'
      · exact not_lt.mp hle
      · exact le_trans (hy z hz') (not_lt.mp hle)

lemma sorted_sortByScoreDesc (l : List Pick) :
    (sortByScoreDesc l).Pairwise (fun a b => b.score ≤ a.score) := by
  induction l with
  | nil => simp [sortByScoreDesc]
  | cons x xs ih => exact pairwise_insertByScoreDesc x _ ih

lemma filter_insertByScoreDesc (x : Pick) (l : List Pick) (s : ℚ) :
    (insertByScoreDesc x l).filter (fun p => decide (p.score = s)) =
      if x.score = s then x :: l.filter (fun p => decide (p.score = s))
      else l.filter (fun p => decide (p.score = s)) := by
  induction l with
  | nil =>
    by_cases hx : x.score = s <;> simp [insertByScoreDesc, List.filter_cons, hx]
  | cons y ys ih =>
    simp only [insertByScoreDesc]
    split
    · next hgt =>
      simp only [List.filter_cons, ih]
      by_cases hx : x.score = s
      · by_cases hy : y.score = s
        · exact absurd hgt (by rw [hx, hy]; exact lt_irrefl s)
        · simp [hx, hy, List.filter_cons]
      · by_cases hy : y.score = s <;> simp [hx, hy, List.filter_cons]
    · next hle =>
      by_cases hx : x.score = s <;> simp [hx, List.filter_cons]

lemma filter_sortByScoreDesc (l : List Pick) (s : ℚ) :
    (sortByScoreDesc l).filter (fun p => decide (p.score = s)) =
      l.filter (fun p => decide (p.score = s)) := by
  induction l with
  | nil => rfl
  | cons x xs ih =>
    simp only [sortByScoreDesc]
    rw [filter_insertByScoreDesc, ih]
    by_cases hx : x.score = s <;> simp [hx, List.filter_cons]

/-- C6: the screen's ranked result is the descending stable sort of the
scored survivors (then truncated): it is sorted by score descending, and
the elements of any equal-score class appear in exactly their original
universe order (the filter by a fixed score value is unchanged by the
sort), so the ranking is deterministic for a fixed universe and source. -/
theorem c6_sort_stable_desc (src : String → List PricePoint)
    (lookback_days top_n : ℕ) (univ : List String) (D : ℤ) :
    screen_stocks src lookback_days top_n univ D =
      (sortByScoreDesc (scoredList src lookback_days univ D)).take top_n ∧
    (screen_stocks src lookback_days top_n univ D).Pairwise
      (fun a b => b.score ≤ a.score) ∧
    ∀ s : ℚ, (sortByScoreDesc (scoredList src lookback_days univ D)).filter
        (fun p => decide (p.score = s)) =
      (scoredList src lookback_days univ D).filter
        (fun p => decide (p.score = s)) := by
  refine ⟨rfl, ?_, fun s => filter_sortByScoreDesc _ s⟩
  exact (sorted_sortByScoreDesc _).sublist (List.take_sublist _ _)

/-- Data source for the C4 counterexample: 50 trading days (dates 0–49),
constant price 100 with a single final rise to 101, shared by every
ticker.  This makes MA50 and RSI14 defined at the latest position, so the
ticker survives the screen. -/
def c4prices : List PricePoint := [⟨0, 100⟩, ⟨1, 100⟩, ⟨2, 100⟩, ⟨3, 100⟩, ⟨4, 100⟩, ⟨5, 100⟩, ⟨6, 100⟩, ⟨7, 100⟩, ⟨8, 100⟩, ⟨9, 100⟩, ⟨10, 100⟩, ⟨11, 100⟩, ⟨12, 100⟩, ⟨13, 100⟩, ⟨14, 100⟩, ⟨15, 100⟩, ⟨16, 100⟩, ⟨17, 100⟩, ⟨18, 100⟩, ⟨19, 100⟩, ⟨20, 100⟩, ⟨21, 100⟩, ⟨22, 100⟩, ⟨23, 100⟩, ⟨24, 100⟩, ⟨25, 100⟩, ⟨26, 100⟩, ⟨27, 100⟩, ⟨28, 100⟩, ⟨29, 100⟩, ⟨30, 100⟩, ⟨31, 100⟩, ⟨32, 100⟩, ⟨33, 100⟩, ⟨34, 100⟩, ⟨35, 100⟩, ⟨36, 100⟩, ⟨37, 100⟩, ⟨38, 100⟩, ⟨39, 100⟩, ⟨40, 100⟩, ⟨41, 100⟩, ⟨42, 100⟩, ⟨43, 100⟩, ⟨44, 100⟩, ⟨45, 100⟩, ⟨46, 100⟩, ⟨47, 100⟩, ⟨48, 100⟩, ⟨49, 101⟩]

/-- The C4 counterexample data source: every ticker has `c4prices`. -/
def c4src : String → List PricePoint := fun _ => c4prices

set_option maxRecDepth 80000 in
/-- C4 as stated is false: with two surviving instruments and a configured
portfolio size of 1, `_screen_stocks` returns a list of length 1, not the
full ranked survivor list of length 2 — the truncation `scored[:top_n]`
happens inside the screen. -/
theorem c4_screen_truncation_counterexample :
    (screen_stocks c4src 50 1 ["A", "B"] 50).length = 1 ∧
    (scoredList c4src 50 ["A", "B"] 50).length = 2 := by
  with_unfolding_all decide

/-- C4 (amended): the screen returns the ranked list already truncated to
the configured top-N inside the screen step itself; its length is
`min N survivors`, not the survivor count. -/
theorem c4_screen_length_amended (src : String → List PricePoint)
    (lookback_days top_n : ℕ) (univ : List String) (D : ℤ) :
    (screen_stocks src lookback_days top_n univ D).length =
      min top_n (scoredList src lookback_days univ D).length := by
  unfold screen_stocks
  rw [List.length_take, length_sortByScoreDesc]

/-- Embeds `np.cumprod` with a running accumulator. -/
def cumprodAux (acc : ℚ) : List ℚ → List ℚ
  | [] => []
  | x :: xs => (acc * x) :: cumprodAux (acc * x) xs

/-- Embeds `np.cumprod`. -/
def cumprod (xs : List ℚ) : List ℚ := cumprodAux 1 xs

/-- Embeds `np.maximum.accumulate` after the first element. -/
def runningMaxAux (acc : ℚ) : List ℚ → List ℚ
  | [] => []
  | x :: xs => max acc x :: runningMaxAux (max acc x) xs

/-- Embeds `np.maximum.accumulate`. -/
def runningMax (xs : List ℚ) : List ℚ :=
  match xs with
  | [] => []
  | x :: rest => x :: runningMaxAux x rest

/-- Embeds `Backtest._calculate_max_drawdown`: compound the equity curve, track
the running peak, and return the minimum drawdown percentage.  `np.min`
of an empty array raises, embedded as `none`. -/
def calculate_max_drawdown (returns : List ℚ) : Option ℚ :=
  let cumulative := cumprod (returns.map (fun r => 1 + r / 100))
  let running_max := runningMax cumulative
  let drawdown := List.zipWith (fun c m => (c - m) / m * 100) cumulative running_max
  drawdown.min?

/-- The claim's equity curve: `equity_t = prod of (1 + return_s/100) for
s ≤ t`. -/
def specEquity (returns : List ℚ) (t : ℕ) : ℚ :=
  ((returns.take (t + 1)).map (fun r => 1 + r / 100)).prod

/-- The claim's running peak: `max of equity_s for s ≤ t`. -/
def specPeak (returns : List ℚ) (t : ℕ) : ℚ :=
  (Finset.range (t + 1)).sup' Finset.nonempty_range_succ (specEquity returns)

/-- The claim's drawdown at `t`, a percentage relative to the peak. -/
def specDrawdown (returns : List ℚ) (t : ℕ) : ℚ :=
  (specEquity returns t - specPeak returns t) / specPeak returns t * 100

lemma cumprodAux_length (a : ℚ) (xs : List ℚ) :
    (cumprodAux a xs).length = xs.length := by
  induction xs generalizing a with
  | nil => rfl
  | cons x xs ih => simp [cumprodAux, ih]

lemma cumprod_length (xs : List ℚ) : (cumprod xs).length = xs.length :=
  cumprodAux_length 1 xs

lemma runningMaxAux_length (a : ℚ) (xs : List ℚ) :
    (runningMaxAux a xs).length = xs.length := by
  induction xs generalizing a with
  | nil => rfl
  | cons x xs ih => simp [runningMaxAux, ih]

lemma runningMax_length (xs : List ℚ) : (runningMax xs).length = xs.length := by
  cases xs with
  | nil => rfl
  | cons x rest => simp [runningMax, runningMaxAux_length]

lemma cumprodAux_getElem (a : ℚ) :
    ∀ (xs : List ℚ) (i : ℕ), i < xs.length →
      (cumprodAux a xs)[i]? = some (a * (xs.take (i + 1)).prod) := by
  intro xs
  induction xs generalizing a with
  | nil => intro i hi; simp at hi
  | cons x xs ih =>
    intro i hi
    cases i with
    | zero => simp [cumprodAux]
    | succ i =>
      have hi' : i < xs.length := by simpa using hi
      simp only [cumprodAux, List.getElem?_cons_succ, ih (a * x) i hi',
        List.take_succ_cons, List.map_cons, List.prod_cons]
      rw [mul_assoc]

lemma cumprod_getElem (xs : List ℚ) (i : ℕ) (h : i < xs.length) :
    (cumprod xs)[i]? = some ((xs.take (i + 1)).prod) := by
  rw [cumprod, cumprodAux_getElem 1 xs i h, one_mul]

lemma runningMaxAux_getElem (a : ℚ) :
    ∀ (xs : List ℚ) (i : ℕ), i < xs.length →
      (runningMaxAux a xs)[i]? = some ((xs.take (i + 1)).foldl max a) := by
  intro xs
  induction xs generalizing a with
  | nil => intro i hi; simp at hi
  | cons x xs ih =>
    intro i hi
    cases i with
    | zero => simp [runningMaxAux]
    | succ i =>
      have hi' : i < xs.length := by simpa using hi
      simp only [runningMaxAux, List.getElem?_cons_succ, ih (max a x) i hi',
        List.take_succ_cons, List.foldl_cons]

lemma foldl_max_take_succ (rest : List ℚ) (a : ℚ) (i : ℕ) (y : ℚ)
    (hy : rest[i]? = some y) :
    (rest.take (i + 1)).foldl max a = max ((rest.take i).foldl max a) y := by
  rw [List.take_succ, hy]
  simp [List.foldl_append]

lemma runningMax_getElem_succ (xs : List ℚ) (i : ℕ)
    (m y : ℚ) (hm : (runningMax xs)[i]? = some m) (hy : xs[i + 1]? = some y) :
    (runningMax xs)[i + 1]? = some (max m y) := by
  cases xs with
  | nil => simp at hy
  | cons x rest =>
    have hyr : rest[i]? = some y := by simpa using hy
    have hir : i < rest.length := by
      by_contra hc
      push_neg at hc
      rw [List.getElem?_eq_none hc] at hyr
      simp at hyr
    cases i with
    | zero =>
      obtain rfl : x = m := by simpa [runningMax] using hm
      cases rest with
      | nil => simp at hyr
      | cons z zs =>
        obtain rfl : z = y := by simpa using hyr
        simp [runningMax, runningMaxAux]
    | succ i =>
      have hi' : i < rest.length := Nat.lt_of_succ_lt hir
      have hm' : (runningMaxAux x rest)[i]? = some m := by
        simpa [runningMax] using hm
      rw [runningMaxAux_getElem x rest i hi'] at hm'
      obtain rfl : (rest.take (i + 1)).foldl max x = m := by simpa using hm'
      have hred : (runningMax (x :: rest))[i + 1 + 1]? =
          (runningMaxAux x rest)[i + 1]? := by
        simp [runningMax]
      rw [hred, runningMaxAux_getElem x rest (i + 1) hir,
        foldl_max_take_succ rest x (i + 1) y hyr]

lemma specPeak_zero (returns : List ℚ) :
    specPeak returns 0 = specEquity returns 0 := by
  unfold specPeak
  apply le_antisymm
  · apply Finset.sup'_le
    intro j hj
    obtain rfl : j = 0 := Nat.lt_one_iff.mp (Finset.mem_range.mp hj)
    exact le_refl _
  · exact Finset.le_sup' _ (Finset.mem_range.mpr Nat.zero_lt_one)

lemma specPeak_succ (returns : List ℚ) (i : ℕ) :
    specPeak returns (i + 1) = max (specPeak returns i) (specEquity returns (i + 1)) := by
  unfold specPeak
  apply le_antisymm
  · apply Finset.sup'_le
    intro j hj
    rcases Nat.lt_succ_iff_lt_or_eq.mp (Finset.mem_range.mp hj) with hj' | rfl
    · exact le_max_of_le_left (Finset.le_sup' _ (Finset.mem_range.mpr hj'))
    · exact le_max_right _ _
  · apply max_le
    · apply Finset.sup'_le
      intro j hj
      exact Finset.le_sup' _
        (Finset.mem_range.mpr (Nat.lt_succ_of_lt (Finset.mem_range.mp hj)))
    · exact Finset.le_sup' _ (Finset.mem_range.mpr (Nat.lt_succ_self _))

lemma cumprod_getElem_specEquity (returns : List ℚ) (i : ℕ)
    (h : i < returns.length) :
    (cumprod (returns.map (fun r => 1 + r / 100)))[i]? =
      some (specEquity returns i) := by
  rw [cumprod_getElem _ i (by simpa using h), ← List.map_take]
  rfl

lemma runningMax_cumprod_peak (returns : List ℚ) :
    ∀ i, i < returns.length →
      (runningMax (cumprod (returns.map (fun r => 1 + r / 100))))[i]? =
        some (specPeak returns i) := by
  intro i
  induction i with
  | zero =>
    intro h
    cases returns with
    | nil => simp at h
    | cons r0 rtail =>
      rw [specPeak_zero]
      simp [cumprod, cumprodAux, runningMax, specEquity]
  | succ i ih =>
    intro h
    have hi : i < returns.length := Nat.lt_of_succ_lt h
    rw [runningMax_getElem_succ _ i _ _ (ih hi)
      (cumprod_getElem_specEquity returns (i + 1) h)]
    rw [specPeak_succ]

/-- C9: the maximum drawdown equals the minimum over `t` of the claim's
peak-relative drawdown formula on the compounded equity curve
`equity_t = prod of (1 + return_s/100) for s ≤ t`; on the period returns
`[+5, -10, +2]` the equity curve is `[1.05, 0.945, 0.9639]`, the drawdown
sequence is `[0 %, -10 %, -8.2 %]` and the result is `-10`. -/
theorem c9_max_drawdown (returns : List ℚ) :
    calculate_max_drawdown returns =
      ((List.range returns.length).map (specDrawdown returns)).min? ∧
    cumprod ([5, -10, 2].map (fun r => 1 + r / 100)) =
      [21/20, 189/200, 9639/10000] ∧
    List.zipWith (fun c m => (c - m) / m * 100)
        (cumprod ([5, -10, 2].map (fun r => 1 + r / 100)))
        (runningMax (cumprod ([5, -10, 2].map (fun r => 1 + r / 100)))) =
      [0, -10, -41/5] ∧
    calculate_max_drawdown [5, -10, 2] = some (-10) := by
  refine ⟨?_, by norm_num [cumprod, cumprodAux],
    by norm_num [cumprod, cumprodAux, runningMax, runningMaxAux, List.zipWith],
    by norm_num [calculate_max_drawdown, cumprod, cumprodAux, runningMax,
      runningMaxAux, List.zipWith, List.min?]⟩
  simp only [calculate_max_drawdown]
  congr 1
  apply List.ext_getElem?
  intro i
  rcases lt_or_ge i returns.length with hi | hi
  · rw [getElem?_zipWith _ _ _ i,
      cumprod_getElem_specEquity returns i hi,
      runningMax_cumprod_peak returns i hi,
      List.getElem?_map, List.getElem?_range hi]
    simp [specDrawdown]
  · have hz : (List.zipWith (fun c m => (c - m) / m * 100)
        (cumprod (returns.map fun r => 1 + r / 100))
        (runningMax (cumprod (returns.map fun r => 1 + r / 100)))).length
        = returns.length := by
      rw [List.length_zipWith, cumprod_length, runningMax_length, cumprod_length]
      simp
    have h1 : (List.zipWith (fun c m => (c - m) / m * 100)
        (cumprod (returns.map fun r => 1 + r / 100))
        (runningMax (cumprod (returns.map fun r => 1 + r / 100))))[i]? = none :=
      List.getElem?_eq_none (by rw [hz]; exact hi)
    have h2 : ((List.range returns.length).map (specDrawdown returns))[i]? = none :=
      List.getElem?_eq_none (by simpa using hi)
    rw [h1, h2]

/-- One row of `Backtest.run`'s result table. -/
structure PeriodResult where
  portfolio : ℚ
  nifty : ℚ
  outperf : ℚ
  num_stocks : ℕ
deriving DecidableEq

/-- Embeds `np.mean` of a list. -/
def npMean (xs : List ℚ) : ℚ := xs.sum / xs.length

/-- Embeds `Backtest._get_month_range`: `backtest_months` consecutive
`(year, month)` pairs from `(start_year, start_month)`, stepping one
calendar month. -/
def get_month_range (start_year : ℤ) (start_month backtest_months : ℕ) :
    List (ℤ × ℕ) :=
  (List.range backtest_months).map (fun i =>
    (start_year + ((start_month - 1 + i) / 12 : ℕ),
     (start_month - 1 + i) % 12 + 1))

/-- Embeds `Backtest._get_screen_date`: `datetime(year, month, 15)`, `None`
(skip) when the construction raises `ValueError` for an invalid month. -/
def get_screen_date (year : ℤ) (month : ℕ) : Option (ℤ × ℕ × ℕ) :=
  if 1 ≤ month ∧ month ≤ 12 then some (year, month, 15) else none

/-- The per-period body of `Backtest.run` once the screen date exists:
no picks → the all-zero row; otherwise measure, average (0 when nothing
measured), fetch the benchmark, and record the rounded row with the count
of measured instruments. -/
def backtestPeriod (screenF : ℤ × ℕ → List Pick)
    (measureF : ℤ × ℕ → List Pick → List ℚ)
    (benchF : ℤ × ℕ → ℚ) (ym : ℤ × ℕ) : PeriodResult :=
  let picks := screenF ym
  if picks.isEmpty then ⟨0, 0, 0, 0⟩
  else
    let returns := measureF ym picks
    let portfolio_return := if returns.isEmpty then 0 else npMean returns
    let benchmark_return := benchF ym
    ⟨round2 portfolio_return, round2 benchmark_return,
     round2 (portfolio_return - benchmark_return), returns.length⟩

/-- Embeds `Backtest.run`, abstracted over the external data interactions:
`screenF` is the screen result of a period (`_screen_stocks`), `measureF`
the measured forward returns of the picks
(`_calculate_portfolio_returns`), `benchF` the benchmark return
(`_get_benchmark_return`).  A period whose screen date is `None` is
skipped with no row (`continue`); every other period appends one row. -/
def Backtest.run (start_year : ℤ) (start_month backtest_months : ℕ)
    (screenF : ℤ × ℕ → List Pick) (measureF : ℤ × ℕ → List Pick → List ℚ)
    (benchF : ℤ × ℕ → ℚ) : List PeriodResult :=
  (get_month_range start_year start_month backtest_months).filterMap (fun ym =>
    match get_screen_date ym.1 ym.2 with
    | none => none
    | some _ => some (backtestPeriod screenF measureF benchF ym))

/-- One row of `WalkForwardValidator.run`'s result table. -/
structure WFResult where
  month : ℕ
  portfolio : ℚ
  nifty : ℚ
  edge : ℚ
deriving DecidableEq

/-- The period indices `range(train_months, months)` iterated by
`WalkForwardValidator.run`. -/
def wfPeriods (train_months months : ℕ) : List ℕ :=
  List.range' train_months (months - train_months)

/-- Embeds `WalkForwardValidator.run`, abstracted over `_screen_blind`
(`screenF`) and `_measure_returns` (`measureF`, returning the portfolio
and benchmark returns): a period with no picks appends NO row
(`continue`); only periods with picks append one. -/
def WalkForwardValidator.run (train_months months : ℕ)
    (screenF : ℕ → List Pick) (measureF : ℕ → List Pick → ℚ × ℚ) :
    List WFResult :=
  (wfPeriods train_months months).filterMap (fun i =>
    let picks := screenF i
    if picks.isEmpty then none
    else
      let pr := measureF i picks
      some ⟨i, pr.1, pr.2, pr.1 - pr.2⟩)

lemma filterMap_eq_map_of_forall_some {α β : Type} (l : List α)
    (f : α → Option β) (g : α → β) (h : ∀ x ∈ l, f x = some (g x)) :
    l.filterMap f = l.map g := by
  induction l with
  | nil => rfl
  | cons x xs ih =>
    simp only [List.filterMap_cons, h x (List.mem_cons_self x xs), List.map_cons]
    rw [ih fun y hy => h y (List.mem_cons_of_mem x hy)]

lemma length_filterMap_ite {α β : Type} (l : List α) (p : α → Bool) (g : α → β) :
    (l.filterMap (fun x => if p x then none else some (g x))).length =
      (l.filter (fun x => !p x)).length := by
  induction l with
  | nil => rfl
  | cons x xs ih =>
    simp only [List.filterMap_cons, List.filter_cons]
    cases hp : p x <;> simp [hp, ih]

lemma get_month_range_valid (start_year : ℤ) (start_month backtest_months : ℕ) :
    ∀ ym ∈ get_month_range start_year start_month backtest_months,
      get_screen_date ym.1 ym.2 = some (ym.1, ym.2, 15) := by
  intro ym hym
  obtain ⟨i, _, rfl⟩ := List.mem_map.mp hym
  have hlt : (start_month - 1 + i) % 12 < 12 :=
    Nat.mod_lt _ (by norm_num)
  simp only [get_screen_date]
  rw [if_pos]
  omega

/-- Lemma: `Backtest.run` never takes the skip path: its rows are exactly the
per-period results in month order. -/
lemma backtest_run_eq_map (start_year : ℤ) (start_month backtest_months : ℕ)
    (screenF : ℤ × ℕ → List Pick) (measureF : ℤ × ℕ → List Pick → List ℚ)
    (benchF : ℤ × ℕ → ℚ) :
    Backtest.run start_year start_month backtest_months screenF measureF benchF =
      (get_month_range start_year start_month backtest_months).map
        (backtestPeriod screenF measureF benchF) := by
  unfold Backtest.run
  apply filterMap_eq_map_of_forall_some
  intro ym hym
  rw [get_month_range_valid start_year start_month backtest_months ym hym]

/-- C2 as stated is false for the Walk-Forward Validator: with a screen
yielding zero candidates, the single period in range (train 6 of 7 months)
is skipped entirely — the run appends no row at all instead of an all-zero
row. -/
theorem c2_walk_forward_skips_counterexample :
    WalkForwardValidator.run 6 7 (fun _ => []) (fun _ _ => (0, 0)) = [] ∧
    wfPeriods 6 7 = [6] := by
  constructor <;> rfl

/-- C2 (amended): the Backtest Engine appends exactly one PeriodResult per
period of the configured range, and records a zero-candidate period as the
all-zero row; the Walk-Forward Validator, however, appends a row only for
periods whose screen yields candidates, skipping zero-candidate periods
with no row. -/
theorem c2_period_rows_amended (start_year : ℤ)
    (start_month backtest_months : ℕ)
    (hm1 : 1 ≤ start_month) (hm2 : start_month ≤ 12)
    (screenF : ℤ × ℕ → List Pick) (measureF : ℤ × ℕ → List Pick → List ℚ)
    (benchF : ℤ × ℕ → ℚ) (train_months months : ℕ)
    (wScreenF : ℕ → List Pick) (wMeasureF : ℕ → List Pick → ℚ × ℚ) :
    (Backtest.run start_year start_month backtest_months
        screenF measureF benchF).length = backtest_months ∧
    (∀ (i : ℕ) (ym : ℤ × ℕ),
      (get_month_range start_year start_month backtest_months)[i]? = some ym →
      screenF ym = [] →
      (Backtest.run start_year start_month backtest_months
          screenF measureF benchF)[i]? = some ⟨0, 0, 0, 0⟩) ∧
    (WalkForwardValidator.run train_months months wScreenF wMeasureF).length =
      ((wfPeriods train_months months).filter
        (fun i => !(wScreenF i).isEmpty)).length := by
  refine ⟨?_, ?_, ?_⟩
  · rw [backtest_run_eq_map]
    simp [get_month_range]
  · intro i ym hym hscreen
    rw [backtest_run_eq_map, List.getElem?_map, hym]
    simp [backtestPeriod, hscreen]
  · exact length_filterMap_ite _ _ _

set_option maxRecDepth 40000 in
/-- Witness for C2 (amended): a two-month run from 2024-02 with an empty
screen records the all-zero row for its first period. -/
theorem c2_period_rows_witness :
    (Backtest.run 2024 2 2 (fun _ => []) (fun _ _ => []) (fun _ => 0))[0]? =
      some ⟨0, 0, 0, 0⟩ :=
  (c2_period_rows_amended 2024 2 2 (by norm_num) (by norm_num)
      (fun _ => []) (fun _ _ => []) (fun _ => 0) 6 7
      (fun _ => []) (fun _ _ => (0, 0))).2.1
    0 (2024, 2) (by with_unfolding_all decide) rfl
